import Mathlib

/-!
Verification development for the `search-optimizer` crate
(`src/rust-wasm/search-optimizer/src/lib.rs`): an in-process full-text
search engine with an inverted index, BM25 ranking, Levenshtein-based
fuzzy matching, filtering, boosting, pagination, faceting and an
autocomplete helper.

The Rust code is shallowly embedded:
  - Rust `String` / `&str` values are `List Char` (Unicode scalar
    sequences); `str::len` (a UTF-8 byte count) is `utf8Len`.
  - `AHashMap` / `AHashSet` are association lists / duplicate-free lists;
    iteration order, unspecified for the hash containers, is modelled as
    insertion order.
  - `BTreeMap` is an association list kept sorted by key.
  - `f64` arithmetic is embedded as exact rational arithmetic; the one
    transcendental operation used, `f64::ln`, is passed in as an explicit
    function parameter `lnF`, so every theorem below holds for every
    choice of logarithm.
  - Rust standard-library character predicates (`char::is_alphanumeric`,
    `str::to_lowercase`) are modelled exactly on the Basic Latin and
    Latin-1 repertoire, the only characters appearing in this
    development.
  - `sort_by`, Rust's stable sort, is modelled by Mathlib's stable
    `List.insertionSort` (a stable sort by a total preorder has a unique
    output, so any stable model is extensionally the code's sort).
-/

namespace SearchOptimizerSpec

/-- UTF-8 byte length of a character sequence: Rust `str::len`. -/
def utf8Len (s : List Char) : Nat :=
  (s.map Char.utf8Size).sum

/-- Modelled from the source's use of `char::is_alphanumeric` (Unicode
alphabetic or numeric), restricted faithfully to the Basic Latin and
Latin-1 blocks: ASCII digits and letters, the Latin-1 ordinal/micro signs,
superscript digits and vulgar fractions, and the Latin-1 letters
U+00C0..U+00FF minus the multiplication and division signs. -/
def rustIsAlphanumeric (c : Char) : Bool :=
  let n := c.toNat
  (0x30 ≤ n && n ≤ 0x39) || (0x41 ≤ n && n ≤ 0x5A) || (0x61 ≤ n && n ≤ 0x7A) ||
  n == 0xAA || n == 0xB5 || n == 0xBA ||
  n == 0xB2 || n == 0xB3 || n == 0xB9 ||
  (0xBC ≤ n && n ≤ 0xBE) ||
  (0xC0 ≤ n && n ≤ 0xFF && n ≠ 0xD7 && n ≠ 0xF7)

/-- Modelled from the source's use of `str::to_lowercase`, restricted
faithfully to the Basic Latin and Latin-1 blocks, where lowercasing is
per-character: ASCII uppercase and the Latin-1 uppercase letters
U+00C0..U+00DE (minus the multiplication sign) map 32 code points up. -/
def rustCharToLower (c : Char) : Char :=
  let n := c.toNat
  if 0x41 ≤ n && n ≤ 0x5A then Char.ofNat (n + 32)
  else if 0xC0 ≤ n && n ≤ 0xDE && n ≠ 0xD7 then Char.ofNat (n + 32)
  else c

/-- `str::to_lowercase` on the modelled repertoire. -/
def rustToLowercase (s : List Char) : List Char :=
  s.map rustCharToLower

/-- Rust `str::starts_with(pat)`: `startsWith hay pat` holds when `pat`
is a leading segment of `hay`. -/
def startsWith : List Char → List Char → Bool
  | _, [] => true
  | [], _ :: _ => false
  | c :: cs, d :: ds => c == d && startsWith cs ds

/-- Rust `str::contains(pat)`: substring containment. -/
def strContains : List Char → List Char → Bool
  | [], pat => startsWith [] pat
  | hay@(_ :: t), pat => startsWith hay pat || strContains t pat

/-- Rust `str::split(pred)`: the (possibly empty) fragments between
separator characters, in order.  `split` of the empty string is one empty
fragment, and consecutive separators yield empty fragments, exactly as in
Rust. -/
def splitOnPred (p : Char → Bool) : List Char → List (List Char)
  | [] => [[]]
  | c :: cs =>
    if p c then [] :: splitOnPred p cs
    else
      match splitOnPred p cs with
      | [] => [[c]]
      | t :: ts => (c :: t) :: ts

/-- `InvertedIndex::tokenize`: lowercase the text, split on
non-alphanumeric characters, keep fragments that are non-empty and of
byte length greater than one. -/
def tokenize (text : List Char) : List (List Char) :=
  ((splitOnPred (fun c => !(rustIsAlphanumeric c)) (rustToLowercase text)).filter
    (fun s => !s.isEmpty && decide (1 < utf8Len s)))

/-- One inner iteration batch of `InvertedIndex::levenshtein_distance`:
fill `curr` at positions `j+1` for each character of `s2c`, reading
neighbours from `prev`, exactly as the Rust inner `for` loop does.
Positions of `curr` beyond the processed characters are left untouched. -/
def levRow (c1 : Char) : List Char → Nat → List Nat → List Nat → List Nat
  | [], _, _, curr => curr
  | c2 :: rest, j, prev, curr =>
    let cost := if c1 == c2 then 0 else 1
    let v := min (min (prev.getD (j + 1) 0 + 1) (curr.getD j 0 + 1))
                 (prev.getD j 0 + cost)
    levRow c1 rest (j + 1) prev (curr.set (j + 1) v)

/-- The outer loop of `InvertedIndex::levenshtein_distance`, with the
row swap of the Rust code: after each row the freshly written row becomes
`prev` and the stale previous row becomes the scratch `curr`. -/
def levOuter (s2c : List Char) : List Char → Nat → List Nat → List Nat → List Nat
  | [], _, prev, _ => prev
  | c1 :: rest, i, prev, curr =>
    let curr2 := levRow c1 s2c 0 prev (curr.set 0 (i + 1))
    levOuter s2c rest (i + 1) curr2 prev

/-- `InvertedIndex::levenshtein_distance`, embedded verbatim: the early
returns and the row dimensions use the *byte* lengths `s1.len()` /
`s2.len()` while the loops iterate over the *characters*, and the result
is read at byte position `len2`. -/
def levenshtein_distance (s1 s2 : List Char) : Nat :=
  let len1 := utf8Len s1
  let len2 := utf8Len s2
  if len1 = 0 then len2
  else if len2 = 0 then len1
  else
    let prev := List.range (len2 + 1)
    let curr := List.replicate (len2 + 1) 0
    (levOuter s2 s1 0 prev curr).getD len2 0

/-! ### Hash containers, modelled as association lists / lists -/

/-- `AHashMap::get`: first binding of the key, if any. -/
def alGet {α β : Type} [DecidableEq α] : List (α × β) → α → Option β
  | [], _ => none
  | (k2, v) :: rest, k => if k2 = k then some v else alGet rest k

/-- `map.entry(k).or_insert_with(d).` followed by an in-place update `f`:
existing keys are updated in place, new keys are appended (the model's
iteration order is insertion order). -/
def alUpdate {α β : Type} [DecidableEq α] : List (α × β) → α → β → (β → β) → List (α × β)
  | [], k, d, f => [(k, f d)]
  | (k2, v) :: rest, k, d, f =>
    if k2 = k then (k2, f v) :: rest else (k2, v) :: alUpdate rest k d f

/-- `AHashMap::insert`: overwrite the binding or append a new one. -/
def alIns {α β : Type} [DecidableEq α] : List (α × β) → α → β → List (α × β)
  | [], k, v => [(k, v)]
  | (k2, w) :: rest, k, v =>
    if k2 = k then (k2, v) :: rest else (k2, w) :: alIns rest k v

/-- `AHashSet::insert`: append the element if absent. -/
def setInsert {α : Type} [DecidableEq α] (s : List α) (a : α) : List α :=
  if a ∈ s then s else s ++ [a]

/-- `AHashSet::extend`: insert every element of the second list. -/
def setExtend {α : Type} [DecidableEq α] (s : List α) (t : List α) : List α :=
  t.foldl setInsert s

/-- First-occurrence deduplication: `AHashSet` collected from an
iterator, materialised in the model's insertion order. -/
def dedup {α : Type} [DecidableEq α] (l : List α) : List α :=
  l.foldl setInsert []

/-- Pad a vector with `x` up to length `n` (the `while ... push` loops of
`add_document`). -/
def padTo {α : Type} (l : List α) (n : Nat) (x : α) : List α :=
  l ++ List.replicate (n - l.length) x

/-! ### The inverted index -/

/-- The `InvertedIndex` struct. -/
structure InvertedIndex where
  term_documents : List (List Char × List Nat)
  document_terms : List (List (List Char))
  term_frequencies : List (List Char × List (Nat × Nat))
  document_lengths : List Nat

/-- `InvertedIndex::new`. -/
def InvertedIndex.new : InvertedIndex := ⟨[], [], [], []⟩

/-- The per-text term-frequency table of `add_document`
(`*term_freq.entry(term).or_insert(0) += 1`). -/
def countOcc (ts : List (List Char)) : List (List Char × Nat) :=
  ts.foldl (fun m t => alUpdate m t 0 (· + 1)) []

/-- `InvertedIndex::add_document`. -/
def InvertedIndex.add_document (idx : InvertedIndex) (doc_id : Nat)
    (text : List Char) : InvertedIndex :=
  let terms := tokenize text
  let unique_terms := dedup terms
  let dt := (padTo idx.document_terms (doc_id + 1) []).set doc_id unique_terms
  let dl := (padTo idx.document_lengths (doc_id + 1) 0).set doc_id terms.length
  let tfreq := countOcc terms
  let td := tfreq.foldl
    (fun m p => alUpdate m p.1 [] (fun s => setInsert s doc_id)) idx.term_documents
  let tf := tfreq.foldl
    (fun m p => alUpdate m p.1 [] (fun fm => alIns fm doc_id p.2)) idx.term_frequencies
  ⟨td, dt, tf, dl⟩

/-- `InvertedIndex::search`: union of the exact posting lists of every
query term, plus, in fuzzy mode, the posting lists of every indexed term
within the given edit distance. -/
def InvertedIndex.searchIds (idx : InvertedIndex) (query : List Char)
    (fuzzy : Bool) (distance : Nat) : List Nat :=
  let query_terms := tokenize query
  query_terms.foldl (fun acc term =>
    let acc := match alGet idx.term_documents term with
      | some docs => setExtend acc docs
      | none => acc
    if fuzzy then
      idx.term_documents.foldl (fun a p =>
        if levenshtein_distance term p.1 ≤ distance then
          match alGet idx.term_documents p.1 with
          | some docs => setExtend a docs
          | none => a
        else a) acc
    else acc) []

/-- `InvertedIndex::calculate_bm25_score`.  Rational arithmetic stands in
for `f64`; the logarithm is the explicit parameter `lnF`.  The two Rust
vector indexings are in bounds in every reachable state and are modelled
with default `0`. -/
def InvertedIndex.calculate_bm25_score (lnF : ℚ → ℚ) (idx : InvertedIndex)
    (doc_id : Nat) (query_terms : List (List Char)) (k1 b : ℚ) : ℚ :=
  let doc_length : ℚ := (idx.document_lengths.getD doc_id 0 : ℚ)
  let avg_doc_length : ℚ :=
    ((idx.document_lengths.foldl (· + ·) 0 : Nat) : ℚ) / (idx.document_lengths.length : ℚ)
  let total_docs : ℚ := (idx.document_lengths.length : ℚ)
  query_terms.foldl (fun score term =>
    match alGet idx.term_frequencies term with
    | none => score
    | some doc_freq_map =>
      match alGet doc_freq_map doc_id with
      | none => score
      | some term_freq =>
        let docs_with_term : ℚ := (doc_freq_map.length : ℚ)
        let idf := lnF ((total_docs - docs_with_term + 1/2) / (docs_with_term + 1/2))
        let tf : ℚ := (term_freq : ℚ)
        let normalized_tf :=
          (tf * (k1 + 1)) / (tf + k1 * (1 - b + b * (doc_length / avg_doc_length)))
        score + idf * normalized_tf) 0

/-! ### Documents, queries, and the engine -/

/-- The `SearchDocument` struct (the `f64` score as a rational). -/
structure SearchDocument where
  id : List Char
  title : List Char
  content : List Char
  tags : List (List Char)
  category : List Char
  score : ℚ
  metadata : Option (List (List Char × List Char))
deriving DecidableEq

instance : Inhabited SearchDocument :=
  ⟨⟨[], [], [], [], [], 0, none⟩⟩

/-- The `SearchFilters` struct.  The date range plays no role in any
operation of the source and is carried as an opaque pair of strings. -/
structure SearchFilters where
  categories : Option (List (List Char))
  tags : Option (List (List Char))
  date_range : Option (List Char × List Char)
  score_threshold : Option ℚ
deriving DecidableEq

/-- The `SearchQuery` struct. -/
structure SearchQuery where
  query : List Char
  filters : Option SearchFilters
  limit : Nat
  offset : Nat
  boost_fields : Option (List (List Char × ℚ))
  fuzzy : Bool
  fuzzy_distance : Option Nat
deriving DecidableEq

/-- The `SearchResult` struct.  `took_ms` is wall-clock observability
only; the model's clock reads `0`. -/
structure SearchResultM where
  documents : List SearchDocument
  total : Nat
  took_ms : ℚ
  facets : Option (List (List Char × List (List Char × Nat)))
deriving DecidableEq

/-- The `SearchOptimizer` struct. -/
structure SearchOptimizer where
  documents : List SearchDocument
  index : InvertedIndex
  category_index : List (List Char × List Nat)
  tag_index : List (List Char × List Nat)

/-- `SearchOptimizer::new`. -/
def SearchOptimizer.new : SearchOptimizer :=
  ⟨[], InvertedIndex.new, [], []⟩

/-- `tags.join(" ")`. -/
def joinSpace : List (List Char) → List Char
  | [] => []
  | [x] => x
  | x :: xs => x ++ [' '] ++ joinSpace xs

/-- The `format!("{} {} {}", title, content, tags.join(" "))` text
indexed for one document. -/
def combinedText (doc : SearchDocument) : List Char :=
  doc.title ++ [' '] ++ doc.content ++ [' '] ++ joinSpace doc.tags

/-- `SearchOptimizer::load_documents`.  JSON decoding is the external
codec; its outcome is the `Except` argument.  On a parse error the code
returns before touching any structure; on success it indexes every
document, accumulates the category and tag indexes, and replaces the
document store. -/
def SearchOptimizer.load_documents (eng : SearchOptimizer)
    (parsed : Except (List Char) (List SearchDocument)) :
    SearchOptimizer × Except (List Char) Nat :=
  match parsed with
  | .error e => (eng, .error e)
  | .ok docs =>
    let eng2 := (docs.enum).foldl (fun acc p =>
      let idx := p.1
      let doc := p.2
      let acc := { acc with index := acc.index.add_document idx (combinedText doc) }
      let ci := alUpdate acc.category_index doc.category [] (fun s => setInsert s idx)
      let acc := { acc with category_index := ci }
      doc.tags.foldl (fun a tag =>
        { a with tag_index := alUpdate a.tag_index tag [] (fun s => setInsert s idx) }) acc)
      eng
    ({ eng2 with documents := docs }, .ok docs.length)

/-- `SearchOptimizer::apply_filters`: within a dimension requested values
are ORed (union of buckets); across dimensions the results are ANDed
(intersection, realised as a membership filter that keeps the incoming
order). -/
def SearchOptimizer.apply_filters (eng : SearchOptimizer) (doc_ids : List Nat)
    (filters : SearchFilters) : List Nat :=
  let doc_ids := match filters.categories with
    | none => doc_ids
    | some categories =>
      let category_docs := categories.foldl (fun acc c =>
        match alGet eng.category_index c with
        | some docs => setExtend acc docs
        | none => acc) []
      doc_ids.filter (· ∈ category_docs)
  match filters.tags with
  | none => doc_ids
  | some tags =>
    let tag_docs := tags.foldl (fun acc t =>
      match alGet eng.tag_index t with
      | some docs => setExtend acc docs
      | none => acc) []
    doc_ids.filter (· ∈ tag_docs)

/-- `SearchOptimizer::apply_boost`, embedded verbatim — including the
source's title test, which compares the document's lowercased title with
*itself* (`doc.title.to_lowercase().contains(&doc.title.to_lowercase())`). -/
def SearchOptimizer.apply_boost (eng : SearchOptimizer) (doc_id : Nat)
    (base_score : ℚ) (boost_fields : Option (List (List Char × ℚ))) : ℚ :=
  match boost_fields with
  | none => base_score
  | some boosts =>
    let doc := eng.documents.getD doc_id default
    let score := base_score
    let score := match alGet boosts "title".data with
      | some title_boost =>
        if strContains (rustToLowercase doc.title) (rustToLowercase doc.title)
        then score * title_boost else score
      | none => score
    let score := match alGet boosts doc.category with
      | some category_boost => score * category_boost
      | none => score
    doc.tags.foldl (fun s tag =>
      match alGet boosts tag with
      | some tag_boost => s * tag_boost
      | none => s) score

/-! ### Facets (`BTreeMap`, kept sorted by key) -/

/-- Byte-lexicographic (equivalently scalar-lexicographic) string order:
Rust's `Ord` for `String`. -/
def strLt : List Char → List Char → Bool
  | [], [] => false
  | [], _ :: _ => true
  | _ :: _, [] => false
  | x :: xs, y :: ys =>
    if x.toNat < y.toNat then true
    else if y.toNat < x.toNat then false
    else strLt xs ys

/-- `*map.entry(k).or_insert(0) += 1` on a `BTreeMap`: bump the count of
`k`, inserting it at its sorted position when absent. -/
def bumpKey : List (List Char × Nat) → List Char → List (List Char × Nat)
  | [], k => [(k, 1)]
  | (k2, c) :: rest, k =>
    if k = k2 then (k2, c + 1) :: rest
    else if strLt k k2 then (k, 1) :: (k2, c) :: rest
    else (k2, c) :: bumpKey rest k

/-- `SearchOptimizer::calculate_facets`: category and tag counts over the
scored (pre-pagination) result set. -/
def SearchOptimizer.calculate_facets (eng : SearchOptimizer)
    (scored_docs : List (Nat × ℚ)) : List (List Char × List (List Char × Nat)) :=
  let category_counts := scored_docs.foldl
    (fun m p => bumpKey m (eng.documents.getD p.1 default).category) []
  let tag_counts := scored_docs.foldl
    (fun m p => (eng.documents.getD p.1 default).tags.foldl bumpKey m) []
  [("categories".data, category_counts), ("tags".data, tag_counts)]

/-! ### The query pipeline -/

/-- Rust's stable `sort_by(|a, b| b.key.cmp(&a.key))` — stable descending
by `key` — modelled by the stable `List.insertionSort`. -/
def sortDescBy {α β : Type} [LinearOrder β] (key : α → β) (l : List α) : List α :=
  @List.insertionSort α (fun a b => key b ≤ key a)
    (fun a b => inferInstanceAs (Decidable (key b ≤ key a))) l

/-- Stages 1–5 of `SearchOptimizer::search`: match, filter, score and
boost, threshold, and the descending stable sort.  This is the "scored
(pre-pagination) result set" the source paginates and facets. -/
def SearchOptimizer.scoredDocs (lnF : ℚ → ℚ) (eng : SearchOptimizer)
    (query : SearchQuery) : List (Nat × ℚ) :=
  let fuzzy_distance := query.fuzzy_distance.getD 2
  let matching_ids := eng.index.searchIds query.query query.fuzzy fuzzy_distance
  let matching_ids := match query.filters with
    | some filters => eng.apply_filters matching_ids filters
    | none => matching_ids
  let query_terms := tokenize query.query
  let scored_docs := matching_ids.map (fun doc_id =>
    let base_score := eng.index.calculate_bm25_score lnF doc_id query_terms (6/5) (3/4)
    (doc_id, eng.apply_boost doc_id base_score query.boost_fields))
  let scored_docs := match query.filters with
    | some filters =>
      match filters.score_threshold with
      | some threshold => scored_docs.filter (fun p => decide (threshold ≤ p.2))
      | none => scored_docs
    | none => scored_docs
  sortDescBy (fun p => p.2) scored_docs

/-- Materialisation of one scored entry: clone the stored document and
overwrite its `score` field with the computed score. -/
def SearchOptimizer.materialize (eng : SearchOptimizer) (p : Nat × ℚ) : SearchDocument :=
  { eng.documents.getD p.1 default with score := p.2 }

/-- `SearchOptimizer::search` on an already-decoded query: pagination of
the scored set, materialisation of the page with overwritten scores, and
facets exactly when filters were supplied.  The model's clock reads 0. -/
def SearchOptimizer.searchExec (lnF : ℚ → ℚ) (eng : SearchOptimizer)
    (query : SearchQuery) : SearchResultM :=
  let scored_docs := eng.scoredDocs lnF query
  let total := scored_docs.length
  let start_idx := min query.offset total
  let end_idx := min (start_idx + query.limit) total
  let result_docs := ((scored_docs.drop start_idx).take (end_idx - start_idx)).map
    (eng.materialize)
  let facets := if query.filters.isSome
    then some (eng.calculate_facets scored_docs) else none
  ⟨result_docs, total, 0, facets⟩

/-! ### Autocomplete -/

/-- The collection loop of `get_suggestions`: walk the indexed terms in
iteration order, keep those starting with the lowercased input, and stop
as soon as `limit * 2` have been collected. -/
def collectSugg (pre : List Char) (cap : Nat) : List (List Char) → List (List Char) → List (List Char)
  | [], acc => acc
  | k :: ks, acc =>
    if startsWith k pre then
      let acc2 := setInsert acc k
      if cap ≤ acc2.length then acc2 else collectSugg pre cap ks acc2
    else collectSugg pre cap ks acc

/-- Document count of a term: the size of its posting set
(`term_documents.get(term).map(|d| d.len()).unwrap_or(0)`). -/
def docCount (idx : InvertedIndex) (term : List Char) : Nat :=
  ((alGet idx.term_documents term).map List.length).getD 0

/-- `SearchOptimizer::get_suggestions` (on the engine's index): collect
at most `limit * 2` matching terms, rank them by document count
descending with the stable sort, return the first `limit`. -/
def get_suggestions (idx : InvertedIndex) (pre : List Char) (limit : Nat) : List (List Char) :=
  let pre_lower := rustToLowercase pre
  let suggestions := collectSugg pre_lower (limit * 2) (idx.term_documents.map Prod.fst) []
  let counted := suggestions.map (fun t => (t, docCount idx t))
  let sorted := sortDescBy (fun p => p.2) counted
  (sorted.take limit).map Prod.fst

/-- `SearchOptimizer::clear`. -/
def SearchOptimizer.clear (_ : SearchOptimizer) : SearchOptimizer :=
  ⟨[], InvertedIndex.new, [], []⟩

/-! ### Spec-side definitions used to state refinement theorems -/

/-- The maximal runs of non-separator characters of a text, in order,
duplicates retained: the spec's "maximal alphanumeric runs" when the
separator predicate is non-alphanumeric.  Stated independently of the
source's `split`-then-`filter` shape. -/
def maxRuns (sep : Char → Bool) : List Char → List (List Char)
  | [] => []
  | c :: cs =>
    if sep c then maxRuns sep cs
    else (c :: cs.takeWhile (fun x => !sep x)) :: maxRuns sep (cs.dropWhile (fun x => !sep x))
termination_by l => l.length
decreasing_by
  · simp
  · have h := (List.dropWhile_sublist (fun x => !sep x) (l := cs)).length_le
    simp only [List.length_cons]
    omega

/-- The tokenizer as the claim words it: runs whose length *in
characters* is at most one are discarded. -/
def specCharTokenize (text : List Char) : List (List Char) :=
  ((splitOnPred (fun c => !(rustIsAlphanumeric c)) (rustToLowercase text)).filter
    (fun s => !s.isEmpty && decide (1 < s.length)))

/-- The per-term BM25 contribution exactly as the spec states it:
`idf * tf'` when the term is present in the document's frequency table,
`0` otherwise, with `N` the total document count, `n_t` the number of
documents containing the term, `len` the document's length and `avg_len`
the average length over all indexed documents. -/
def bm25TermContribution (lnF : ℚ → ℚ) (idx : InvertedIndex) (doc_id : Nat)
    (k1 b : ℚ) (term : List Char) : ℚ :=
  match alGet idx.term_frequencies term with
  | none => 0
  | some doc_freq_map =>
    match alGet doc_freq_map doc_id with
    | none => 0
    | some term_freq =>
      let N : ℚ := (idx.document_lengths.length : ℚ)
      let n_t : ℚ := (doc_freq_map.length : ℚ)
      let len : ℚ := (idx.document_lengths.getD doc_id 0 : ℚ)
      let avg_len : ℚ :=
        ((idx.document_lengths.foldl (· + ·) 0 : Nat) : ℚ) / (idx.document_lengths.length : ℚ)
      let idf := lnF ((N - n_t + 1/2) / (n_t + 1/2))
      let tf : ℚ := (term_freq : ℚ)
      idf * ((tf * (k1 + 1)) / (tf + k1 * (1 - b + b * (len / avg_len))))

/-- Sum of the counts of one facet dimension. -/
def facetValSum (m : List (List Char × Nat)) : Nat :=
  (m.map Prod.snd).sum

/-! ### Concrete instances used by counterexamples and witnesses -/

/-- A degenerate logarithm; the theorems quantify over `lnF`, witnesses
instantiate it. -/
def ln0 : ℚ → ℚ := fun _ => 0

/-- The spec's concrete scenario document `a`. -/
def docRedHouse : SearchDocument :=
  ⟨"a".data, "Red House".data, "".data, ["garden".data], "house".data, 0, none⟩

/-- The spec's concrete scenario document `b`. -/
def docBlueFlat : SearchDocument :=
  ⟨"b".data, "Blue Flat".data, "".data, [], "flat".data, 0, none⟩

/-- Engine loaded with the spec's two concrete scenario documents. -/
def engTwo : SearchOptimizer :=
  (SearchOptimizer.new.load_documents (.ok [docRedHouse, docBlueFlat])).1

/-- First-generation document for the reload scenario. -/
def docAlpha : SearchDocument :=
  ⟨"a".data, "alpha".data, "".data, [], "h1".data, 0, none⟩

/-- Second-generation document for the reload scenario; shares no term
with `docAlpha`. -/
def docBeta : SearchDocument :=
  ⟨"b".data, "beta".data, "".data, [], "f1".data, 0, none⟩

/-- Query for the term `alpha`, present only in the first generation. -/
def qAlpha : SearchQuery :=
  ⟨"alpha".data, none, 10, 0, none, false, none⟩

/-- A document with `content` only, for the autocomplete scenario. -/
def mkContentDoc (i : List Char) (content : List Char) : SearchDocument :=
  ⟨i, "".data, content, [], "c1".data, 0, none⟩

/-- Engine for the autocomplete scenario: `tera` and `terb` occur in one
document each and are indexed first; `terc` occurs in five documents and
is indexed later. -/
def engSugg : SearchOptimizer :=
  (SearchOptimizer.new.load_documents (.ok
    [mkContentDoc "0".data "tera terb".data,
     mkContentDoc "1".data "terc".data,
     mkContentDoc "2".data "terc".data,
     mkContentDoc "3".data "terc".data,
     mkContentDoc "4".data "terc".data,
     mkContentDoc "5".data "terc".data])).1

/-- A query with filters supplied but no filter values, so filtering is
the identity and facets are requested. -/
def qHouseFiltered : SearchQuery :=
  ⟨"house".data, some ⟨none, none, none, none⟩, 10, 0, none, false, none⟩

/-- The spec's fuzzy scenario query, with no explicit distance. -/
def qFuzzyNone : SearchQuery :=
  ⟨"hous".data, none, 10, 0, none, true, none⟩

/-- The `limit = 0` query of the claim's edge case. -/
def qLimit0 : SearchQuery :=
  ⟨"house".data, none, 0, 0, none, false, none⟩

/-! ## Theorems -/

unseal Rat.mul Rat.add Rat.sub Rat.inv in
/-- C1: the claim says a second `load` fully replaces the state built by
the first, so that a query for a term present only in first-generation
documents returns `total = 0`.  The code never clears the inverted index
in `load_documents` (only `clear` does), so the first generation's
posting lists survive a reload: after loading `[docAlpha]` and then
`[docBeta]`, the query `alpha` — a term of the first generation only —
still matches, and `total = 1`, not `0`. -/
theorem C1_reload_keeps_stale_postings :
    "alpha".data ∈ tokenize (combinedText docAlpha) ∧
    "alpha".data ∉ tokenize (combinedText docBeta) ∧
    ((((SearchOptimizer.new.load_documents (.ok [docAlpha])).1.load_documents
        (.ok [docBeta])).1).searchExec ln0 qAlpha).total = 1 := by
  decide

unseal Rat.mul Rat.add Rat.sub Rat.inv in
/-- C2: the claim says (with the spec's resolution of its flagged
discrepancy) that a configured `title` boost multiplies a document's
score exactly when the query text occurs in the document's title.  The
code's test is `doc.title.to_lowercase().contains(&doc.title.to_lowercase())`
— the title compared with itself, the query nowhere — so every document
is title-boosted: here the score of `docBlueFlat` is doubled although the
query text `house` does not occur in the title `Blue Flat`. -/
theorem C2_title_boost_ignores_query :
    engTwo.apply_boost 1 1 (some [("title".data, 2)]) = 2 ∧
    (engTwo.documents.getD 1 default).title = "Blue Flat".data ∧
    strContains (rustToLowercase "Blue Flat".data) (rustToLowercase "house".data) = false := by
  decide

/-- C3: the claim says the edit distance operates on Unicode scalar
sequences and is symmetric, zero on equal strings, `|s|` (in characters)
against the empty string, and zero only on equal strings.  The code
collects the characters but sizes its DP rows and reads the result at the
*byte* lengths, so every clause fails on multi-byte input: the distance
from `éa` to itself is 3, `a`/`é` gives 0 one way and 1 the other, and
the distance from the empty string to `é` is its byte length 2, not its
character length 1. -/
theorem C3_levenshtein_byte_indexing_bug :
    levenshtein_distance "éa".data "éa".data = 3 ∧
    levenshtein_distance "a".data "é".data = 0 ∧
    "a".data ≠ "é".data ∧
    levenshtein_distance "é".data "a".data = 1 ∧
    levenshtein_distance "".data "é".data = 2 ∧
    ("é".data).length = 1 := by
  decide

/-- C9: a `load` whose input fails to parse returns the error and leaves
the whole engine state — documents, inverted index, category index, tag
index — unchanged, because the parse is the first statement of
`load_documents` and the `?` operator returns before any mutation. -/
theorem C9_load_parse_failure_preserves_state (eng : SearchOptimizer) (e : List Char) :
    (eng.load_documents (.error e)).1 = eng ∧
    (eng.load_documents (.error e)).2 = .error e :=
  ⟨rfl, rfl⟩

/-- C10: when `fuzzy_distance` is not supplied, `search` behaves exactly
as if it had been supplied as `2` (`query.fuzzy_distance.unwrap_or(2)`). -/
theorem C10_default_fuzzy_distance (lnF : ℚ → ℚ) (eng : SearchOptimizer)
    (q : SearchQuery) (_hf : q.fuzzy = true) (hd : q.fuzzy_distance = none) :
    eng.searchExec lnF q = eng.searchExec lnF { q with fuzzy_distance := some 2 } := by
  simp only [SearchOptimizer.searchExec, SearchOptimizer.scoredDocs, hd,
    Option.getD_none, Option.getD_some]

/-- Witness for C10 at the spec's fuzzy scenario: the query `hous` with
`fuzzy = true` and no distance behaves as with distance 2. -/
theorem C10_default_fuzzy_distance_witness :
    engTwo.searchExec ln0 qFuzzyNone =
      engTwo.searchExec ln0 { qFuzzyNone with fuzzy_distance := some 2 } :=
  C10_default_fuzzy_distance ln0 engTwo qFuzzyNone (by decide) (by decide)

/-- The head of a `dropWhile` result does not satisfy the dropped
predicate. -/
theorem dropWhile_head_false (q : Char → Bool) :
    ∀ (l : List Char) (d : Char) (rest : List Char),
      l.dropWhile q = d :: rest → q d = false := by
  intro l
  induction l with
  | nil => intro d rest h; simp [List.dropWhile] at h
  | cons x xs ih =>
    intro d rest h
    by_cases hx : q x
    · exact ih d rest (by simpa [List.dropWhile, hx] using h)
    · rw [List.dropWhile_cons_of_neg hx] at h
      cases h
      simpa using hx

/-- `split` always yields the leading run, then the fragments of the rest
after the first separator. -/
theorem splitOnPred_structure (p : Char → Bool) :
    ∀ cs : List Char,
      splitOnPred p cs = (cs.takeWhile (fun c => !p c)) ::
        (match cs.dropWhile (fun c => !p c) with
         | [] => []
         | _ :: rest => splitOnPred p rest) := by
  intro cs
  induction cs with
  | nil => simp [splitOnPred]
  | cons c cs ih =>
    by_cases hc : p c
    · simp [splitOnPred, hc, List.takeWhile_cons, List.dropWhile_cons]
    · simp only [splitOnPred, hc, if_false, ih, List.takeWhile_cons, List.dropWhile_cons,
        Bool.not_eq_true']
      simp [hc]

/-- Discarding the empty fragments of `split` yields exactly the maximal
non-separator runs, in order. -/
theorem filter_nonempty_splitOnPred (p : Char → Bool) :
    (l : List Char) → (splitOnPred p l).filter (fun s => !s.isEmpty) = maxRuns p l
  | [] => by simp [splitOnPred, maxRuns]
  | c :: cs => by
    cases hc : p c with
    | true =>
      have ihcs := filter_nonempty_splitOnPred p cs
      simp [splitOnPred, hc, maxRuns, ihcs]
    | false =>
      rw [splitOnPred_structure p (c :: cs)]
      rw [List.takeWhile_cons_of_pos (by simp [hc]), List.dropWhile_cons_of_pos (by simp [hc])]
      rcases hdw : cs.dropWhile (fun x => !p x) with _ | ⟨d, rest⟩
      · simp [maxRuns, hc, hdw]
      · have hd : p d = true := by
          have h2 := dropWhile_head_false (fun x => !p x) cs d rest hdw
          simpa using h2
        have ihrest := filter_nonempty_splitOnPred p rest
        simp [maxRuns, hc, hdw, hd, ihrest]
termination_by l => l.length
decreasing_by
  all_goals simp only [List.length_cons]
  all_goals first
    | omega
    | (have h1 := (List.dropWhile_sublist (fun x => !p x) (l := cs)).length_le
       rw [hdw] at h1
       simp only [List.length_cons] at h1
       omega)

/-- C4 counterexample: the run `é` has character length 1, so the claim
discards it, but the code measures UTF-8 bytes (`str::len`), keeps it,
and the two tokenizations differ. -/
theorem C4_char_length_counterexample :
    tokenize "é".data = [['é']] ∧
    specCharTokenize "é".data = [] ∧
    tokenize "é".data ≠ specCharTokenize "é".data := by
  decide

/-- C4 (amended): the tokenizer returns exactly the maximal alphanumeric
runs of the lowercased text, in order and with duplicates retained,
discarding every run whose *UTF-8 byte* length is at most 1 (for ASCII
text this coincides with the claim's character reading).  Totality and
determinism hold because `tokenize` is a Lean function. -/
theorem C4_tokenizer_maximal_byte_runs (text : List Char) :
    tokenize text =
      (maxRuns (fun c => !(rustIsAlphanumeric c)) (rustToLowercase text)).filter
        (fun s => decide (1 < utf8Len s)) := by
  unfold tokenize
  rw [← filter_nonempty_splitOnPred, List.filter_filter]
  refine List.filter_congr ?_
  intro s _
  rw [Bool.and_comm]

/-- C6: pagination returns exactly the slice
`[min(offset, total), min(min(offset, total) + limit, total))` of the
sorted scored results, together with the pre-pagination total; in
particular `limit = 0` yields zero documents and `offset ≥ total` yields
an empty page, never an error. -/
theorem C6_pagination_slice (lnF : ℚ → ℚ) (eng : SearchOptimizer) (q : SearchQuery) :
    (eng.searchExec lnF q).total = (eng.scoredDocs lnF q).length ∧
    (eng.searchExec lnF q).documents =
      (((eng.scoredDocs lnF q).drop (min q.offset (eng.scoredDocs lnF q).length)).take
        (min (min q.offset (eng.scoredDocs lnF q).length + q.limit)
          (eng.scoredDocs lnF q).length - min q.offset (eng.scoredDocs lnF q).length)).map
        (eng.materialize) ∧
    (q.limit = 0 → (eng.searchExec lnF q).documents = []) ∧
    ((eng.scoredDocs lnF q).length ≤ q.offset → (eng.searchExec lnF q).documents = []) := by
  refine ⟨rfl, rfl, ?_, ?_⟩
  · intro h
    show (((eng.scoredDocs lnF q).drop (min q.offset (eng.scoredDocs lnF q).length)).take
        (min (min q.offset (eng.scoredDocs lnF q).length + q.limit)
          (eng.scoredDocs lnF q).length - min q.offset (eng.scoredDocs lnF q).length)).map
        (eng.materialize) = []
    have hz : min (min q.offset (eng.scoredDocs lnF q).length + q.limit)
        (eng.scoredDocs lnF q).length - min q.offset (eng.scoredDocs lnF q).length = 0 := by
      omega
    rw [hz, List.take_zero, List.map_nil]
  · intro h
    show (((eng.scoredDocs lnF q).drop (min q.offset (eng.scoredDocs lnF q).length)).take
        (min (min q.offset (eng.scoredDocs lnF q).length + q.limit)
          (eng.scoredDocs lnF q).length - min q.offset (eng.scoredDocs lnF q).length)).map
        (eng.materialize) = []
    have hz : min (min q.offset (eng.scoredDocs lnF q).length + q.limit)
        (eng.scoredDocs lnF q).length - min q.offset (eng.scoredDocs lnF q).length = 0 := by
      omega
    rw [hz, List.take_zero, List.map_nil]

/-- Witness for C6 at a concrete engine: a `limit = 0` query returns no
documents and the pre-pagination total. -/
theorem C6_pagination_slice_witness :
    (engTwo.searchExec ln0 qLimit0).documents = [] ∧
    (engTwo.searchExec ln0 qLimit0).total = (engTwo.scoredDocs ln0 qLimit0).length :=
  ⟨(C6_pagination_slice ln0 engTwo qLimit0).2.2.1 rfl,
   (C6_pagination_slice ln0 engTwo qLimit0).1⟩

/-- Accumulating a pointwise-additive fold is the initial value plus the
sum of the per-element contributions. -/
theorem foldl_add_contribution (g : List Char → ℚ) (body : ℚ → List Char → ℚ)
    (hb : ∀ s t, body s t = s + g t) :
    ∀ (qts : List (List Char)) (init : ℚ),
      qts.foldl body init = init + (qts.map g).sum := by
  intro qts
  induction qts with
  | nil => intro init; simp
  | cons t ts ih =>
    intro init
    rw [List.foldl_cons, ih, hb, List.map_cons, List.sum_cons]
    ring

/-- C7: the BM25 score is the sum, over the query terms, of the spec's
per-term contribution — `idf * tf'` for terms present in the document's
frequency table and `0` for absent terms — so a document containing none
of the query terms scores exactly `0`.  Quantified over every logarithm
`lnF`, every index state and both BM25 parameters. -/
theorem C7_bm25_sum_of_contributions (lnF : ℚ → ℚ) (idx : InvertedIndex)
    (doc_id : Nat) (qts : List (List Char)) (k1 b : ℚ) :
    idx.calculate_bm25_score lnF doc_id qts k1 b =
      (qts.map (bm25TermContribution lnF idx doc_id k1 b)).sum ∧
    ((∀ t ∈ qts, (alGet idx.term_frequencies t).bind (fun m => alGet m doc_id) = none) →
      idx.calculate_bm25_score lnF doc_id qts k1 b = 0) := by
  have hmain : idx.calculate_bm25_score lnF doc_id qts k1 b =
      (qts.map (bm25TermContribution lnF idx doc_id k1 b)).sum := by
    simp only [InvertedIndex.calculate_bm25_score]
    rw [foldl_add_contribution (bm25TermContribution lnF idx doc_id k1 b) _ ?hb, zero_add]
    case hb =>
      intro s t
      simp only [bm25TermContribution]
      rcases h1 : alGet idx.term_frequencies t with _ | m
      · simp [h1]
      · rcases h2 : alGet m doc_id with _ | tf
        · simp [h1, h2]
        · simp [h1, h2]
  refine ⟨hmain, ?_⟩
  intro habs
  rw [hmain]
  apply List.sum_eq_zero
  intro x hx
  rcases List.mem_map.mp hx with ⟨t, ht, rfl⟩
  have hnone := habs t ht
  simp only [bm25TermContribution]
  rcases h1 : alGet idx.term_frequencies t with _ | m
  · simp [h1]
  · rcases h2 : alGet m doc_id with _ | tf
    · simp [h1, h2]
    · simp only [h1, Option.bind] at hnone
      exact absurd hnone (by simp [h2])

/-- Witness for C7: against the loaded two-document engine, a query term
that occurs in no document scores exactly `0`. -/
theorem C7_bm25_witness :
    engTwo.index.calculate_bm25_score ln0 0 ["zzz".data] (6/5) (3/4) = 0 :=
  (C7_bm25_sum_of_contributions ln0 engTwo.index 0 ["zzz".data] (6/5) (3/4)).2 (by decide)

/-- Bumping one key of a facet dimension raises the total count by one. -/
theorem facetValSum_bumpKey :
    ∀ (m : List (List Char × Nat)) (k : List Char),
      facetValSum (bumpKey m k) = facetValSum m + 1 := by
  intro m
  induction m with
  | nil => intro k; simp [bumpKey, facetValSum]
  | cons p rest ih =>
    intro k
    obtain ⟨k2, c⟩ := p
    by_cases h1 : k = k2
    · simp only [bumpKey, if_pos h1, facetValSum, List.map_cons, List.sum_cons]
      omega
    · by_cases h2 : strLt k k2
      · simp only [bumpKey, if_neg h1, if_pos h2, facetValSum, List.map_cons, List.sum_cons]
        omega
      · simp only [bumpKey, if_neg h1, if_neg h2, facetValSum, List.map_cons, List.sum_cons]
        have ih2 := ih k
        simp only [facetValSum] at ih2
        omega

/-- Folding `bumpKey` over a list raises the total count by the list's
length: every element lands in exactly one bucket. -/
theorem facetValSum_foldl_bump {γ : Type} (f : γ → List Char) :
    ∀ (l : List γ) (m : List (List Char × Nat)),
      facetValSum (l.foldl (fun acc x => bumpKey acc (f x)) m) = facetValSum m + l.length := by
  intro l
  induction l with
  | nil => intro m; simp
  | cons x xs ih =>
    intro m
    rw [List.foldl_cons, ih, facetValSum_bumpKey, List.length_cons]
    omega

/-- C8: facets are returned iff filters were supplied; they are computed
over the scored pre-pagination result set, and the category facet counts
sum exactly to the number of scored documents (each document has exactly
one category). -/
theorem C8_facets_iff_filters_and_category_sum (lnF : ℚ → ℚ)
    (eng : SearchOptimizer) (q : SearchQuery) :
    ((eng.searchExec lnF q).facets.isSome ↔ q.filters.isSome) ∧
    (∀ fs, (eng.searchExec lnF q).facets = some fs →
      ∀ cc, alGet fs "categories".data = some cc →
        facetValSum cc = (eng.scoredDocs lnF q).length) := by
  constructor
  · show (if q.filters.isSome then some (eng.calculate_facets (eng.scoredDocs lnF q))
      else none).isSome ↔ q.filters.isSome
    by_cases h : q.filters.isSome <;> simp [h]
  · intro fs hfs cc hcc
    have hfs2 : (if q.filters.isSome then some (eng.calculate_facets (eng.scoredDocs lnF q))
        else none) = some fs := hfs
    by_cases h : q.filters.isSome
    · rw [if_pos h] at hfs2
      injection hfs2 with hfs3
      subst hfs3
      simp [SearchOptimizer.calculate_facets, alGet] at hcc
      subst hcc
      simpa [facetValSum] using facetValSum_foldl_bump
        (fun p : Nat × ℚ => (eng.documents.getD p.1 default).category)
        (eng.scoredDocs lnF q) []
    · rw [if_neg h] at hfs2
      exact absurd hfs2 (by simp)

unseal Rat.mul Rat.add Rat.sub Rat.inv in
/-- Witness for C8 at the loaded two-document engine with empty filters:
facets are present, and the category counts sum to the scored total. -/
theorem C8_facets_witness :
    facetValSum [("house".data, 1)] = (engTwo.scoredDocs ln0 qHouseFiltered).length ∧
    ((engTwo.searchExec ln0 qHouseFiltered).facets.isSome ↔ qHouseFiltered.filters.isSome) :=
  ⟨(C8_facets_iff_filters_and_category_sum ln0 engTwo qHouseFiltered).2
      [("categories".data, [("house".data, 1)]), ("tags".data, [("garden".data, 1)])]
      (by decide) [("house".data, 1)] (by decide),
   (C8_facets_iff_filters_and_category_sum ln0 engTwo qHouseFiltered).1⟩

/-- When at most `cap` keys match, the collection loop of
`get_suggestions` never stops early and returns every matching key in
iteration order. -/
theorem collectSugg_all (pre : List Char) (cap : Nat) :
    ∀ (ks acc : List (List Char)), ks.Nodup → (∀ k ∈ ks, k ∉ acc) →
      acc.length + (ks.filter (fun k => startsWith k pre)).length ≤ cap →
      collectSugg pre cap ks acc = acc ++ ks.filter (fun k => startsWith k pre) := by
  intro ks
  induction ks with
  | nil => intro acc _ _ _; simp [collectSugg]
  | cons k ks ih =>
    intro acc hnd hdisj hcap
    have hnd2 := List.nodup_cons.mp hnd
    by_cases hm : startsWith k pre
    · have hknotin : k ∉ acc := hdisj k (by simp)
      have hins : setInsert acc k = acc ++ [k] := by simp [setInsert, hknotin]
      have hfl : (k :: ks).filter (fun x => startsWith x pre) =
          k :: ks.filter (fun x => startsWith x pre) := by
        simp [List.filter_cons, hm]
      rw [hfl] at hcap
      simp only [List.length_cons] at hcap
      by_cases hbreak : cap ≤ (setInsert acc k).length
      · have hbreak2 : cap ≤ acc.length + 1 := by
          rw [hins] at hbreak
          simpa using hbreak
        have hemp : ks.filter (fun x => startsWith x pre) = [] := by
          have hlen : (ks.filter (fun x => startsWith x pre)).length = 0 := by omega
          exact List.length_eq_zero.mp hlen
        simp only [collectSugg, hm, if_true]
        rw [if_pos hbreak, hins, hfl, hemp]
      · simp only [collectSugg, hm, if_true]
        rw [if_neg hbreak, hins]
        rw [ih (acc ++ [k]) hnd2.2 ?hdisj2 ?hcap2]
        · rw [hfl, List.append_assoc]
          rfl
        case hdisj2 =>
          intro k2 hk2
          simp only [List.mem_append, List.mem_singleton]
          rintro (hk2acc | rfl)
          · exact hdisj k2 (by simp [hk2]) hk2acc
          · exact hnd2.1 hk2
        case hcap2 =>
          simp only [List.length_append, List.length_cons, List.length_nil]
          omega
    · have hfl : (k :: ks).filter (fun x => startsWith x pre) =
          ks.filter (fun x => startsWith x pre) := by
        simp [List.filter_cons, hm]
      simp only [collectSugg, hm, if_false, Bool.false_eq_true]
      rw [hfl] at hcap ⊢
      exact ih acc hnd2.2 (fun k2 hk2 => hdisj k2 (by simp [hk2])) hcap

/-- The stable descending sort is a permutation of its input. -/
theorem sortDescBy_perm {α β : Type} [LinearOrder β] (key : α → β) (l : List α) :
    (sortDescBy key l).Perm l :=
  @List.perm_insertionSort α (fun a b => key b ≤ key a)
    (fun a b => inferInstanceAs (Decidable (key b ≤ key a))) l

/-- The stable descending sort is sorted by descending key. -/
theorem sortDescBy_sorted {α β : Type} [LinearOrder β] (key : α → β) (l : List α) :
    (sortDescBy key l).Sorted (fun a b => key b ≤ key a) := by
  haveI ht : IsTotal α (fun a b => key b ≤ key a) := ⟨fun a b => le_total (key b) (key a)⟩
  haveI htr : IsTrans α (fun a b => key b ≤ key a) :=
    ⟨fun _ _ _ hab hbc => le_trans hbc hab⟩
  exact @List.sorted_insertionSort α (fun a b => key b ≤ key a)
    (fun a b => inferInstanceAs (Decidable (key b ≤ key a))) ht htr l

/-- C5 counterexample: `get_suggestions` stops collecting once
`limit * 2` matching terms have been seen, so with `limit = 1` on an
index whose first two terms in iteration order (`tera`, `terb`, one
document each) match the input, the later term `terc` — matching and
contained in five documents — is never considered, and a lower-ranked
term is returned instead. -/
theorem C5_early_break_counterexample :
    get_suggestions engSugg.index "ter".data 1 = ["tera".data] ∧
    startsWith "terc".data "ter".data = true ∧
    docCount engSugg.index "terc".data = 5 ∧
    docCount engSugg.index "tera".data = 1 ∧
    "terc".data ∉ get_suggestions engSugg.index "ter".data 1 := by
  decide

/-- C5 (amended): *provided at most `limit * 2` indexed terms match the
prefix* (so the collection loop's early break cannot drop a matching
term), `get_suggestions` returns `min limit (number of matching terms)`
terms, in descending document-count order, and omits no prefix-matching
term with a higher document count than a returned term. -/
theorem C5_suggestions_top_ranked (idx : InvertedIndex) (pre : List Char) (limit : Nat)
    (hnd : (idx.term_documents.map Prod.fst).Nodup)
    (hcap : ((idx.term_documents.map Prod.fst).filter
      (fun k => startsWith k (rustToLowercase pre))).length ≤ limit * 2) :
    (get_suggestions idx pre limit).length =
      min limit ((idx.term_documents.map Prod.fst).filter
        (fun k => startsWith k (rustToLowercase pre))).length ∧
    (get_suggestions idx pre limit).Pairwise
      (fun a b => docCount idx b ≤ docCount idx a) ∧
    (∀ t ∈ idx.term_documents.map Prod.fst, startsWith t (rustToLowercase pre) = true →
      t ∉ get_suggestions idx pre limit →
      ∀ r ∈ get_suggestions idx pre limit, docCount idx t ≤ docCount idx r) := by
  have hcol : collectSugg (rustToLowercase pre) (limit * 2)
      (idx.term_documents.map Prod.fst) [] =
      (idx.term_documents.map Prod.fst).filter
        (fun k => startsWith k (rustToLowercase pre)) := by
    have h := collectSugg_all (rustToLowercase pre) (limit * 2)
      (idx.term_documents.map Prod.fst) [] hnd (by simp) (by simpa using hcap)
    simpa using h
  have hgs : get_suggestions idx pre limit =
      ((sortDescBy (fun p : List Char × Nat => p.2)
        (((idx.term_documents.map Prod.fst).filter
          (fun k => startsWith k (rustToLowercase pre))).map
            (fun t => (t, docCount idx t)))).take limit).map Prod.fst := by
    simp only [get_suggestions, hcol]
  have hperm := sortDescBy_perm (fun p : List Char × Nat => p.2)
    (((idx.term_documents.map Prod.fst).filter
      (fun k => startsWith k (rustToLowercase pre))).map (fun t => (t, docCount idx t)))
  have hsort := sortDescBy_sorted (fun p : List Char × Nat => p.2)
    (((idx.term_documents.map Prod.fst).filter
      (fun k => startsWith k (rustToLowercase pre))).map (fun t => (t, docCount idx t)))
  have hval : ∀ p ∈ sortDescBy (fun p : List Char × Nat => p.2)
      (((idx.term_documents.map Prod.fst).filter
        (fun k => startsWith k (rustToLowercase pre))).map (fun t => (t, docCount idx t))),
      p.2 = docCount idx p.1 := by
    intro p hp
    have hpc := hperm.mem_iff.mp hp
    rcases List.mem_map.mp hpc with ⟨t, _, rfl⟩
    rfl
  refine ⟨?_, ?_, ?_⟩
  · rw [hgs, List.length_map, List.length_take, hperm.length_eq, List.length_map]
  · rw [hgs, List.pairwise_map]
    have hp2 : (sortDescBy (fun p : List Char × Nat => p.2)
        (((idx.term_documents.map Prod.fst).filter
          (fun k => startsWith k (rustToLowercase pre))).map
            (fun t => (t, docCount idx t)))).take limit
        |>.Pairwise (fun a b : List Char × Nat => b.2 ≤ a.2) :=
      List.Pairwise.sublist (List.take_sublist _ _) hsort
    refine hp2.imp_of_mem ?_
    intro a b ha hb hab
    have hva := hval a ((List.take_sublist _ _).mem ha)
    have hvb := hval b ((List.take_sublist _ _).mem hb)
    rw [← hva, ← hvb]
    exact hab
  · intro t hterm hmatch hnotin r hr
    have htf : t ∈ (idx.term_documents.map Prod.fst).filter
        (fun k => startsWith k (rustToLowercase pre)) :=
      List.mem_filter.mpr ⟨hterm, hmatch⟩
    have htc : (t, docCount idx t) ∈ sortDescBy (fun p : List Char × Nat => p.2)
        (((idx.term_documents.map Prod.fst).filter
          (fun k => startsWith k (rustToLowercase pre))).map (fun t => (t, docCount idx t))) :=
      hperm.mem_iff.mpr (List.mem_map_of_mem _ htf)
    rw [hgs] at hr
    rcases List.mem_map.mp hr with ⟨pr, hprtake, rfl⟩
    have hsplit := List.take_append_drop limit (sortDescBy (fun p : List Char × Nat => p.2)
      (((idx.term_documents.map Prod.fst).filter
        (fun k => startsWith k (rustToLowercase pre))).map (fun t => (t, docCount idx t))))
    have hpw : List.Pairwise (fun a b : List Char × Nat => b.2 ≤ a.2) _ :=
      hsplit ▸ hsort
    rcases (List.pairwise_append.mp hpw) with ⟨_, _, hcross⟩
    rcases List.mem_append.mp (hsplit ▸ htc) with htake | hdrop
    · exact absurd (hgs ▸ List.mem_map_of_mem Prod.fst htake) hnotin
    · have hle := hcross pr hprtake (t, docCount idx t) hdrop
      have hvpr := hval pr ((List.take_sublist _ _).mem hprtake)
      simpa [hvpr] using hle

/-- Witness for C5 at the autocomplete engine with `limit = 2`: three
terms match, which is at most `2 * 2`, so the returned page has
`min 2 3 = 2` entries. -/
theorem C5_suggestions_top_ranked_witness :
    (get_suggestions engSugg.index "ter".data 2).length =
      min 2 ((engSugg.index.term_documents.map Prod.fst).filter
        (fun k => startsWith k (rustToLowercase "ter".data))).length :=
  (C5_suggestions_top_ranked engSugg.index "ter".data 2 (by decide) (by decide)).1

end SearchOptimizerSpec
